import Mathlib

/-!
Verification of the computational core of the Smooth-Blur repository:
the easing library (`src/lib/blur-utils.ts`), the gradient-stop
synthesizer (`maskImage` in `src/features/blur-generator/index.tsx`,
lines 217–228), and the linear undo/redo history controller (same file,
lines 136–190).

Modelling conventions:
- JavaScript numbers are modelled as real numbers (`ℝ`): the
  exact-arithmetic idealization of the source's IEEE-754 doubles.  For
  the synthesizer claims every evaluated quantity (`t = 0`, `t = 1`,
  integer heights, expo's special-cased boundaries, products of small
  integers) is exactly representable and every source operation on it
  is exact, so the two readings coincide.  They do NOT coincide for the
  sine family's `in` variant at `t = 1`: the source evaluates
  `Math.cos` at the machine constant `Math.PI / 2`, which is not
  `π / 2`, so the double result of `1 - Math.cos(Math.PI / 2)` is
  `0.9999999999999999`, not the idealization's exact `1`.  The machine
  constant is embedded exactly as `MathPI` and the C4 theorem below
  quantifies this divergence.
- `Number.prototype.toFixed(k)` (round to `k` decimals, ties toward the
  larger candidate for non-negative inputs per ECMA-262) is modelled as
  `formatScaled ⌊x * 10^k + 1/2⌋ k`; this agrees with `toFixed` on all
  non-negative exactly-representable inputs, in particular at every
  point where the claims evaluate it.
- The string-keyed easing catalog of `blur-utils.ts` (union types
  `EasingPreset` and `EasingVariant`) is modelled by two inductive
  enumerations; `getEasing`'s unchecked string dispatch corresponds to
  total dispatch on these enumerations (the source treats any other
  string as a programmer error).
-/

namespace SmoothBlur

/-- EasingPreset from `blur-utils.ts`: `keyof typeof easings`. -/
inductive EasingFamily where
  | linear | sine | quad | cubic | quart | quint | expo | circ
deriving DecidableEq

/-- EasingVariant from `blur-utils.ts`: `'in' | 'out' | 'in-out'`
(`in` is a Lean keyword, hence the `ease` prefixes). -/
inductive EasingVariant where
  | easeIn | easeOut | easeInOut
deriving DecidableEq

namespace easings

/-- Source: `linear: (t) => t`. -/
def linear (t : ℝ) : ℝ := t

/-- Source: the `sine` entry of the `easings` catalog, under the
exact-real idealization (`Real.pi` for `Math.PI`, exact `Real.cos` and
subtraction).  In the source's double arithmetic the `in` variant
misses the claimed exact boundary value at `t = 1` — see `MathPI` and
the C4 theorem below, which evaluate the source's formula at the true
machine value of `Math.PI`. -/
noncomputable def sine : EasingVariant → ℝ → ℝ
  | .easeIn    => fun t => 1 - Real.cos (t * Real.pi / 2)
  | .easeOut   => fun t => Real.sin (t * Real.pi / 2)
  | .easeInOut => fun t => -(Real.cos (Real.pi * t) - 1) / 2

/-- Source: the `quad` entry of the `easings` catalog. -/
noncomputable def quad : EasingVariant → ℝ → ℝ
  | .easeIn    => fun t => t * t
  | .easeOut   => fun t => 1 - (1 - t) * (1 - t)
  | .easeInOut => fun t => if t < 0.5 then 2 * t * t else 1 - (-2 * t + 2) ^ 2 / 2

/-- Source: the `cubic` entry of the `easings` catalog. -/
noncomputable def cubic : EasingVariant → ℝ → ℝ
  | .easeIn    => fun t => t * t * t
  | .easeOut   => fun t => 1 - (1 - t) ^ 3
  | .easeInOut => fun t => if t < 0.5 then 4 * t * t * t else 1 - (-2 * t + 2) ^ 3 / 2

/-- Source: the `quart` entry of the `easings` catalog. -/
noncomputable def quart : EasingVariant → ℝ → ℝ
  | .easeIn    => fun t => t * t * t * t
  | .easeOut   => fun t => 1 - (1 - t) ^ 4
  | .easeInOut => fun t => if t < 0.5 then 8 * t * t * t * t else 1 - (-2 * t + 2) ^ 4 / 2

/-- Source: the `quint` entry of the `easings` catalog. -/
noncomputable def quint : EasingVariant → ℝ → ℝ
  | .easeIn    => fun t => t * t * t * t * t
  | .easeOut   => fun t => 1 - (1 - t) ^ 5
  | .easeInOut => fun t => if t < 0.5 then 16 * t * t * t * t * t else 1 - (-2 * t + 2) ^ 5 / 2

/-- Source: the `expo` entry of the `easings` catalog (with the explicit
`t === 0` / `t === 1` boundary special cases; `Math.pow` on real
exponents is `Real.rpow`). -/
noncomputable def expo : EasingVariant → ℝ → ℝ
  | .easeIn    => fun t => if t = 0 then 0 else (2 : ℝ) ^ (10 * t - 10)
  | .easeOut   => fun t => if t = 1 then 1 else 1 - (2 : ℝ) ^ (-10 * t)
  | .easeInOut => fun t =>
      if t = 0 then 0 else if t = 1 then 1 else
      if t < 0.5 then (2 : ℝ) ^ (20 * t - 10) / 2 else (2 - (2 : ℝ) ^ (-20 * t + 10)) / 2

/-- Source: the `circ` entry of the `easings` catalog. -/
noncomputable def circ : EasingVariant → ℝ → ℝ
  | .easeIn    => fun t => 1 - Real.sqrt (1 - t ^ 2)
  | .easeOut   => fun t => Real.sqrt (1 - (t - 1) ^ 2)
  | .easeInOut => fun t =>
      if t < 0.5 then (1 - Real.sqrt (1 - (2 * t) ^ 2)) / 2
      else (Real.sqrt (1 - (-2 * t + 2) ^ 2) + 1) / 2

end easings

/-- Source: `getEasing(preset, type, t)` in `blur-utils.ts` — `linear`
ignores the variant, every other family dispatches on it. -/
noncomputable def getEasing (preset : EasingFamily) (type : EasingVariant) (t : ℝ) : ℝ :=
  match preset with
  | .linear => easings.linear t
  | .sine   => easings.sine type t
  | .quad   => easings.quad type t
  | .cubic  => easings.cubic type t
  | .quart  => easings.quart type t
  | .quint  => easings.quint type t
  | .expo   => easings.expo type t
  | .circ   => easings.circ type t

/-- The exact rational value of the IEEE-754 double `Math.PI`
(`884279719003555 × 2⁻⁴⁸ = 3.14159265358979311599796…`), the constant
the source's sine formulas actually evaluate `Math.cos`/`Math.sin` at.
It is strictly smaller than `π`. -/
noncomputable def MathPI : ℝ := 884279719003555 / 2 ^ 48

/-- BlurState from `blur-generator/index.tsx` (the snapshot entity). -/
structure BlurState where
  direction : String
  height : ℕ
  precision : ℕ
  blur : ℕ
  easingType : EasingVariant
  preset : EasingFamily
  reverse : Bool
deriving DecidableEq

/-- DEFAULT_STATE from `blur-generator/index.tsx`. -/
def DEFAULT_STATE : BlurState :=
  { direction := "to top", height := 50, precision := 6, blur := 15,
    easingType := .easeIn, preset := .expo, reverse := false }

/-- Renders the integer `n` (a value already scaled by `10^k`) as a
decimal numeral with exactly `k` digits after the point — the
formatting half of `Number.prototype.toFixed(k)`. -/
def formatScaled (n : ℤ) (k : ℕ) : String :=
  let digits := toString n.natAbs
  let padded :=
    if digits.length < k + 1 then
      (List.replicate (k + 1 - digits.length) '0').asString ++ digits
    else digits
  (if n < 0 then "-" else "") ++ padded.take (padded.length - k) ++
    (if k = 0 then "" else "." ++ padded.drop (padded.length - k))

/-- Model of `x.toFixed(k)`: round to `k` decimals, ties toward the
larger candidate (exact for the non-negative, exactly-representable
inputs at which the claims evaluate it). -/
noncomputable def toFixed (x : ℝ) (k : ℕ) : String :=
  formatScaled ⌊x * 10 ^ k + 1 / 2⌋ k

/-- Loop body of `maskImage` (index.tsx lines 219–225): the color-stop
string pushed for loop index `i`. -/
noncomputable def stopAt (p : BlurState) (i : ℕ) : String :=
  let t : ℝ := (i : ℝ) / (p.precision : ℝ)
  let easedT : ℝ := getEasing p.preset p.easingType t
  let opacity : ℝ := if p.reverse then easedT else 1 - easedT
  let pos : ℝ := ((i : ℝ) / (p.precision : ℝ)) * (p.height : ℝ)
  "rgba(0, 0, 0, " ++ toFixed opacity 3 ++ ") " ++ toFixed pos 1 ++ "%"

/-- The stops produced by the `for` loop of `maskImage`
(`i` from `0` to `precision` inclusive). -/
noncomputable def computedStops (p : BlurState) : List String :=
  (List.range (p.precision + 1)).map (stopAt p)

/-- The terminal stop pushed when `height < 100` (index.tsx line 226):
a JavaScript template literal interpolating the number `1` or `0`. -/
def terminalStop (reverse : Bool) : String :=
  "rgba(0, 0, 0, " ++ (if reverse then "1" else "0") ++ ") 100%"

/-- The full `stops` array of `maskImage` after the conditional push. -/
noncomputable def maskStops (p : BlurState) : List String :=
  computedStops p ++ (if p.height < 100 then [terminalStop p.reverse] else [])

/-- The `maskImage` string (index.tsx line 227). -/
noncomputable def maskImage (p : BlurState) : String :=
  "linear-gradient(" ++ p.direction ++ ", " ++ String.intercalate ", " (maskStops p) ++ ")"

/-- History controller state: the `history` array, the `historyIndex`,
and the live parameter snapshot (`currentState`, the tuple of the seven
individual `useState` values).  The index is a natural number: the
source's transient `-1` exists only before the mount effect seeds the
history, which is where our model starts. -/
structure HistoryState where
  history : List BlurState
  index : ℕ
  live : BlurState
deriving DecidableEq

/-- Seeding on mount (index.tsx lines 141–145): `setHistory([currentState]);
setHistoryIndex(0)`. -/
def initState (s : BlurState) : HistoryState :=
  { history := [s], index := 0, live := s }

/-- Source `applyState` (index.tsx lines 164–172): writes a snapshot
into the seven live parameter states. -/
def applyState (σ : HistoryState) (s : BlurState) : HistoryState :=
  { σ with live := s }

/-- The debounced commit firing with pending snapshot `s` (the
`setTimeout` body, index.tsx lines 150–159): truncate the history to
`historyIndex + 1` entries, compare the truncation's last entry with the
pending snapshot (the source compares `JSON.stringify` images, which on
these records is structural equality), and append plus move the index
to the new last position when they differ.  The pending snapshot is the
live `currentState` at fire time, so `live = s` on entry and exit. -/
def commitFire (s : BlurState) (σ : HistoryState) : HistoryState :=
  let next := σ.history.take (σ.index + 1)
  if next.getLast? ≠ some s then
    { history := next ++ [s], index := next.length, live := s }
  else
    { history := next, index := σ.index, live := s }

/-- Source `undo` (index.tsx lines 174–181).  `history[idx]` is
modelled as `getD idx DEFAULT_STATE`; the index is in range in every
reachable state (proved below), so the default is never consulted. -/
def undo (σ : HistoryState) : HistoryState :=
  if 0 < σ.index then
    applyState { σ with index := σ.index - 1 } (σ.history.getD (σ.index - 1) DEFAULT_STATE)
  else σ

/-- Source `redo` (index.tsx lines 183–190), symmetric to `undo`. -/
def redo (σ : HistoryState) : HistoryState :=
  if σ.index < σ.history.length - 1 then
    applyState { σ with index := σ.index + 1 } (σ.history.getD (σ.index + 1) DEFAULT_STATE)
  else σ

/-- History states reachable from an initial seeded state by debounced
commits and undo/redo clicks. -/
inductive Reachable : HistoryState → Prop where
  | init (s : BlurState) : Reachable (initState s)
  | stepCommit (s : BlurState) {σ : HistoryState} : Reachable σ → Reachable (commitFire s σ)
  | stepUndo {σ : HistoryState} : Reachable σ → Reachable (undo σ)
  | stepRedo {σ : HistoryState} : Reachable σ → Reachable (redo σ)

/-- Controller state including the debounce timer: `pending = some s`
means a commit of snapshot `s` is scheduled and its 300 ms window has
not yet elapsed; `none` means no timer is live. -/
structure Controller where
  hist : HistoryState
  pending : Option BlurState
deriving DecidableEq

/-- A user-driven parameter change to snapshot `s`: updates the live
state and (re)schedules the debounced commit — the effect's cleanup
(`clearTimeout`, index.tsx line 161) cancels any previously pending
commit, so the new pending snapshot replaces the old one. -/
def change (s : BlurState) (c : Controller) : Controller :=
  { hist := applyState c.hist s, pending := some s }

/-- The debounce window elapsing: a pending commit fires and the timer
slot empties; with no pending commit nothing happens. -/
def elapse (c : Controller) : Controller :=
  match c.pending with
  | none => c
  | some s => { hist := commitFire s c.hist, pending := none }

/-- An `undo` click at the controller level.  When it changes state,
the effect re-runs: its cleanup clears any pending timer, and the
`isUndoing` re-entrancy flag (index.tsx lines 146–149) stops the
restored snapshot from scheduling a fresh commit — hence `pending`
becomes `none`.  When the guard fails nothing re-renders and the
pending timer (if any) survives. -/
def undoC (c : Controller) : Controller :=
  if 0 < c.hist.index then { hist := undo c.hist, pending := none } else c

/-- A `redo` click at the controller level, symmetric to `undoC`. -/
def redoC (c : Controller) : Controller :=
  if c.hist.index < c.hist.history.length - 1 then
    { hist := redo c.hist, pending := none }
  else c

/-- Controller states reachable from a freshly seeded editor. -/
inductive ReachableC : Controller → Prop where
  | init (s : BlurState) : ReachableC { hist := initState s, pending := none }
  | stepChange (s : BlurState) {c : Controller} : ReachableC c → ReachableC (change s c)
  | stepElapse {c : Controller} : ReachableC c → ReachableC (elapse c)
  | stepUndo {c : Controller} : ReachableC c → ReachableC (undoC c)
  | stepRedo {c : Controller} : ReachableC c → ReachableC (redoC c)

/-- Four concrete snapshots (distinct heights) used to instantiate the
theorems below on closed inputs. -/
def stA : BlurState := DEFAULT_STATE

/-- Concrete snapshot with height 60. -/
def stB : BlurState := { DEFAULT_STATE with height := 60 }

/-- Concrete snapshot with height 70. -/
def stC : BlurState := { DEFAULT_STATE with height := 70 }

/-- Concrete snapshot with height 80. -/
def stD : BlurState := { DEFAULT_STATE with height := 80 }

/-- Invariant of the history controller: a non-empty sequence, an
in-range index, a live snapshot equal to the entry at the index, and no
two adjacent structurally-equal entries. -/
def StateInv (σ : HistoryState) : Prop :=
  σ.history ≠ [] ∧ σ.index < σ.history.length ∧
  σ.history.getD σ.index DEFAULT_STATE = σ.live ∧
  σ.history.Chain' (fun a b => a ≠ b)

lemma initState_inv (s : BlurState) : StateInv (initState s) := by
  refine ⟨by simp [initState], by simp [initState], by simp [initState], ?_⟩
  simp [initState]

lemma commitFire_inv (s : BlurState) {σ : HistoryState} (h : StateInv σ) :
    StateInv (commitFire s σ) := by
  obtain ⟨hne, hidx, hlive, hchain⟩ := h
  have hlen : (σ.history.take (σ.index + 1)).length = σ.index + 1 := by
    simp [List.length_take]; omega
  have hchain' : (σ.history.take (σ.index + 1)).Chain' (fun a b => a ≠ b) :=
    hchain.prefix (List.take_prefix _ _)
  rw [commitFire]
  split
  · next hneq =>
    refine ⟨by simp, by simp [hlen], ?_, ?_⟩
    · show List.getD _ _ _ = s
      rw [List.getD_eq_getElem?_getD, List.getElem?_append_right (Nat.le_refl _)]
      simp
    · rw [List.chain'_append]
      refine ⟨hchain', List.chain'_singleton _, ?_⟩
      intro x hx y hy
      simp at hy
      subst hy
      intro hxs
      exact hneq (by rw [← hxs]; exact (List.getLast?_eq_getElem? _) ▸ hx)
  · next hneq =>
    have heq : (σ.history.take (σ.index + 1)).getLast? = some s := by
      by_contra hc; exact hneq hc
    refine ⟨?_, by simp [hlen], ?_, hchain'⟩
    · intro hcon
      have hcon' : σ.history.take (σ.index + 1) = [] := hcon
      rw [hcon'] at hlen
      simp at hlen
    · show List.getD _ _ _ = s
      have heq2 : σ.history[σ.index]? = some s := by
        rw [List.getLast?_eq_getElem?, hlen] at heq
        simpa using heq
      rw [List.getD_eq_getElem?_getD]
      simp [heq2]

lemma undo_inv {σ : HistoryState} (h : StateInv σ) : StateInv (undo σ) := by
  obtain ⟨hne, hidx, hlive, hchain⟩ := h
  rw [undo]
  split
  · next hpos =>
    exact ⟨hne, by simp [applyState]; omega, rfl, hchain⟩
  · exact ⟨hne, hidx, hlive, hchain⟩

lemma redo_inv {σ : HistoryState} (h : StateInv σ) : StateInv (redo σ) := by
  obtain ⟨hne, hidx, hlive, hchain⟩ := h
  rw [redo]
  split
  · next hlt =>
    exact ⟨hne, by simp [applyState]; omega, rfl, hchain⟩
  · exact ⟨hne, hidx, hlive, hchain⟩

/-- Every reachable history state satisfies the controller invariant. -/
lemma reachable_inv {σ : HistoryState} (h : Reachable σ) : StateInv σ := by
  induction h with
  | init s => exact initState_inv s
  | stepCommit s _ ih => exact commitFire_inv s ih
  | stepUndo _ ih => exact undo_inv ih
  | stepRedo _ ih => exact redo_inv ih

/-- Concrete snapshot with height 100 (no terminal stop emitted). -/
def st100 : BlurState := { DEFAULT_STATE with height := 100 }

/-- C1: for every BlurParameters input with precision in [2,20], the
gradient string (the `", "`-intercalation of `maskStops` wrapped in
`linear-gradient(direction, …)`) contains exactly `precision + 1` color
stops when `height = 100` and exactly `precision + 2` when
`height < 100`. -/
theorem stop_count (p : BlurState) (_h2 : 2 ≤ p.precision) (_h20 : p.precision ≤ 20) :
    maskImage p =
      "linear-gradient(" ++ p.direction ++ ", " ++ String.intercalate ", " (maskStops p) ++ ")" ∧
    (p.height = 100 → (maskStops p).length = p.precision + 1) ∧
    (p.height < 100 → (maskStops p).length = p.precision + 2) := by
  refine ⟨rfl, ?_, ?_⟩
  · intro hh
    simp [maskStops, computedStops, hh]
  · intro hh
    simp [maskStops, computedStops, hh]

/-- Witness for `stop_count` at the source's default parameters
(precision 6, height 50). -/
theorem stop_count_witness :
    (2 ≤ DEFAULT_STATE.precision ∧ DEFAULT_STATE.precision ≤ 20 ∧ DEFAULT_STATE.height < 100) ∧
    (maskStops DEFAULT_STATE).length = DEFAULT_STATE.precision + 2 :=
  ⟨⟨by decide, by decide, by decide⟩,
    (stop_count DEFAULT_STATE (by decide) (by decide)).2.2 (by decide)⟩

/-- C2: whenever `height < 100` the synthesizer appends exactly one
terminal stop — at position `100%`, alpha printed `1` when `reverse` and
`0` otherwise — after the `precision + 1` loop-computed stops, and when
`height = 100` no terminal stop is appended. -/
theorem terminal_stop (p : BlurState) :
    (p.height < 100 →
      maskStops p = computedStops p ++ [terminalStop p.reverse] ∧
      (computedStops p).length = p.precision + 1 ∧
      terminalStop p.reverse =
        "rgba(0, 0, 0, " ++ (if p.reverse then "1" else "0") ++ ") 100%") ∧
    (p.height = 100 → maskStops p = computedStops p) := by
  constructor
  · intro hh
    refine ⟨by simp [maskStops, hh], by simp [computedStops], rfl⟩
  · intro hh
    simp [maskStops, hh]

/-- Witness for `terminal_stop`: height 50 gets the terminal stop,
height 100 does not. -/
theorem terminal_stop_witness :
    (DEFAULT_STATE.height < 100 ∧
      maskStops DEFAULT_STATE = computedStops DEFAULT_STATE ++ [terminalStop DEFAULT_STATE.reverse]) ∧
    (st100.height = 100 ∧ maskStops st100 = computedStops st100) :=
  ⟨⟨by decide, ((terminal_stop DEFAULT_STATE).1 (by decide)).1⟩,
    ⟨rfl, (terminal_stop st100).2 rfl⟩⟩

/-- All 21 non-linear family/variant pairs satisfy the boundary
normalization `f(0) = 0`, `f(1) = 1` under the exact-real idealization
of the catalog formulas — the spec's stated intent, which the `expo`
entry enforces in the source itself by special-casing `t === 0` and
`t === 1`.  This idealization is NOT the source's double arithmetic;
the C4 theorem below shows the source misses exactness at the
sine/in/`t = 1` boundary. -/
lemma ease_boundary_ideal (F : EasingFamily) (V : EasingVariant) (h : F ≠ .linear) :
    getEasing F V 0 = 0 ∧ getEasing F V 1 = 1 := by
  cases F with
  | linear => exact absurd rfl h
  | sine =>
    cases V <;> constructor <;>
      norm_num [getEasing, easings.sine, Real.cos_pi_div_two, Real.sin_pi_div_two, Real.cos_pi]
  | quad => cases V <;> constructor <;> norm_num [getEasing, easings.quad]
  | cubic => cases V <;> constructor <;> norm_num [getEasing, easings.cubic]
  | quart => cases V <;> constructor <;> norm_num [getEasing, easings.quart]
  | quint => cases V <;> constructor <;> norm_num [getEasing, easings.quint]
  | expo => cases V <;> constructor <;> norm_num [getEasing, easings.expo]
  | circ => cases V <;> constructor <;> norm_num [getEasing, easings.circ]

/-- C4 (code bug at family `sine`, variant `in`, `t = 1`): the claim's
exactness is the spec's intent — and it holds under the exact-real
idealization, first conjunct — but the source program misses it.  At
`t = 1` the source computes `1 - Math.cos((1 * Math.PI) / 2)` where
`Math.PI` is the double `884279719003555 / 2^48 < π`, so (second and
third conjuncts) even with an exactly computed cosine the value is not
1: it falls short of 1 by more than `2⁻⁵⁴`, half the distance between 1
and its predecessor double `1 - 2⁻⁵³`.  Round-to-nearest therefore
cannot bring the double result back to 1 for any cosine implementation
in error by less than `2⁻⁵⁴ · 0.1` (the true value of
`Math.cos(Math.PI / 2)` is `6.123…e-17 > 1.1 · 2⁻⁵⁴`), and JavaScript
engines indeed return `0.9999999999999999 ≠ 1`. -/
theorem sine_in_exactness_bug :
    easings.sine .easeIn 1 = 1 ∧
    1 - Real.cos (1 * MathPI / 2) ≠ 1 ∧
    1 - Real.cos (1 * MathPI / 2) < 1 - 1 / 2 ^ 54 := by
  have hideal : easings.sine .easeIn 1 = 1 := by
    norm_num [easings.sine, Real.cos_pi_div_two]
  have hmp : MathPI = 884279719003555 / 2 ^ 48 := rfl
  have haux1 : (884279719003555 / 2 ^ 48 : ℝ) < 3.14159265358979323846 := by norm_num
  have haux2 : (3.14159265358979323847 : ℝ) / 2 - 884279719003555 / 2 ^ 48 / 2 ≤ 1 := by
    norm_num
  have haux3 : (3.14159265358979323847 : ℝ) / 2 - 884279719003555 / 2 ^ 48 / 2 < 1 / 10 ^ 16 := by
    norm_num
  have hd1 : (0:ℝ) < Real.pi / 2 - MathPI / 2 := by
    rw [hmp]; linarith [Real.pi_gt_d20]
  have hd2 : Real.pi / 2 - MathPI / 2 ≤ 1 := by
    rw [hmp]; linarith [Real.pi_lt_d20, haux2]
  have hlo : (3.14159265358979323846 : ℝ) / 2 - 884279719003555 / 2 ^ 48 / 2 <
      Real.pi / 2 - MathPI / 2 := by
    rw [hmp]; linarith [Real.pi_gt_d20]
  have hhi : Real.pi / 2 - MathPI / 2 < 1 / 10 ^ 16 := by
    rw [hmp]; linarith [Real.pi_lt_d20, haux3]
  have hsin := Real.sin_gt_sub_cube hd1 hd2
  have hsq : (Real.pi / 2 - MathPI / 2) ^ 2 < 1 / 10 ^ 32 := by nlinarith [hd1, hhi]
  have hcube : (Real.pi / 2 - MathPI / 2) ^ 3 ≤ 1 / 10 ^ 32 * (Real.pi / 2 - MathPI / 2) := by
    nlinarith [hsq, hd1]
  have hkey : (1 / 2 ^ 54 : ℝ) < Real.sin (Real.pi / 2 - MathPI / 2) := by
    nlinarith [hsin, hlo, hcube]
  have hcos : Real.cos (1 * MathPI / 2) = Real.sin (Real.pi / 2 - MathPI / 2) := by
    rw [one_mul, Real.sin_pi_div_two_sub]
  refine ⟨hideal, ?_, ?_⟩
  · rw [hcos]; intro h; linarith [hkey]
  · rw [hcos]; linarith [hkey]

lemma toFixed_one_3 : toFixed 1 3 = "1.000" := by rw [toFixed]; norm_num; decide

lemma toFixed_zero_3 : toFixed 0 3 = "0.000" := by rw [toFixed]; norm_num; decide

lemma toFixed_zero_1 : toFixed 0 1 = "0.0" := by rw [toFixed]; norm_num; decide

lemma toFixed_fifty_1 : toFixed 50 1 = "50.0" := by rw [toFixed]; norm_num; decide

/-- First loop stop for the default parameters: `i = 0` gives `t = 0`,
`ease = 0`, `opacity = 1`, `pos = 0`. -/
lemma stopAt_default_0 : stopAt DEFAULT_STATE 0 = "rgba(0, 0, 0, 1.000) 0.0%" := by
  simp only [stopAt, DEFAULT_STATE]
  norm_num [getEasing, easings.expo, toFixed_one_3, toFixed_zero_1]
  decide

/-- Last loop stop for the default parameters: `i = 6` gives `t = 1`,
`ease = 1`, `opacity = 0`, `pos = 50`. -/
lemma stopAt_default_6 : stopAt DEFAULT_STATE 6 = "rgba(0, 0, 0, 0.000) 50.0%" := by
  simp only [stopAt, DEFAULT_STATE]
  norm_num [getEasing, easings.expo, toFixed_zero_3, toFixed_fifty_1]
  decide

/-- C3 (amended): at the boundary-scenario input (the source defaults:
direction `to top`, height 50, precision 6, expo/in, reverse false) the
first stop is `rgba(0, 0, 0, 1.000) 0.0%`, the last computed stop
(`i = 6`) is `rgba(0, 0, 0, 0.000) 50.0%`, and the terminal stop is
`rgba(0, 0, 0, 0) 100%` — the values the claim states, with the spaces
after the commas that the source's template literal actually emits. -/
theorem boundary_scenario :
    (maskStops DEFAULT_STATE).head? = some "rgba(0, 0, 0, 1.000) 0.0%" ∧
    (maskStops DEFAULT_STATE)[6]? = some "rgba(0, 0, 0, 0.000) 50.0%" ∧
    (maskStops DEFAULT_STATE).getLast? = some "rgba(0, 0, 0, 0) 100%" := by
  have hmask : maskStops DEFAULT_STATE =
      (List.range 7).map (stopAt DEFAULT_STATE) ++ [terminalStop false] := by
    simp [maskStops, computedStops]
    rfl
  refine ⟨?_, ?_, ?_⟩
  · rw [hmask]
    simp [List.range_succ_eq_map, stopAt_default_0]
  · rw [hmask]
    rw [List.getElem?_append]
    simp [stopAt_default_6]
  · rw [hmask, List.getLast?_concat]
    rfl

/-- C3 counterexample: the first stop of the boundary scenario is the
space-separated string `rgba(0, 0, 0, 1.000) 0.0%`, not the claim's
literal `rgba(0,0,0,1.000) 0.0%`. -/
theorem boundary_scenario_cex :
    (maskStops DEFAULT_STATE).head? = some "rgba(0, 0, 0, 1.000) 0.0%" ∧
    (maskStops DEFAULT_STATE).head? ≠ some "rgba(0,0,0,1.000) 0.0%" := by
  have h : (maskStops DEFAULT_STATE).head? = some "rgba(0, 0, 0, 1.000) 0.0%" := by
    have hmask : maskStops DEFAULT_STATE =
        (List.range 7).map (stopAt DEFAULT_STATE) ++ [terminalStop false] := by
      simp [maskStops, computedStops]
      rfl
    rw [hmask]
    simp [List.range_succ_eq_map, stopAt_default_0]
  exact ⟨h, by rw [h]; decide⟩

/-- C5: from a history holding only A at index 0, committing B then C
(each debounce firing), two `undo()` calls restore A as the live state
at index 0; a subsequent commit of D truncates B and C (the sequence
becomes `[A, D]` at index 1), and `redo()` afterward is a no-op. -/
theorem history_scenario (A B C D : BlurState) (hAB : A ≠ B) (hBC : B ≠ C) (hAD : A ≠ D) :
    undo (undo (commitFire C (commitFire B (initState A)))) = ⟨[A, B, C], 0, A⟩ ∧
    commitFire D (⟨[A, B, C], 0, A⟩ : HistoryState) = ⟨[A, D], 1, D⟩ ∧
    redo (⟨[A, D], 1, D⟩ : HistoryState) = ⟨[A, D], 1, D⟩ := by
  have h1 : commitFire B (initState A) = ⟨[A, B], 1, B⟩ := by
    simp [commitFire, initState, hAB]
  have h2 : commitFire C (⟨[A, B], 1, B⟩ : HistoryState) = ⟨[A, B, C], 2, C⟩ := by
    simp [commitFire, hBC]
  have h3 : undo (⟨[A, B, C], 2, C⟩ : HistoryState) = ⟨[A, B, C], 1, B⟩ := by
    simp [undo, applyState]
  have h4 : undo (⟨[A, B, C], 1, B⟩ : HistoryState) = ⟨[A, B, C], 0, A⟩ := by
    simp [undo, applyState]
  have h5 : commitFire D (⟨[A, B, C], 0, A⟩ : HistoryState) = ⟨[A, D], 1, D⟩ := by
    simp [commitFire, hAD]
  have h6 : redo (⟨[A, D], 1, D⟩ : HistoryState) = ⟨[A, D], 1, D⟩ := by
    simp [redo]
  rw [h1, h2, h3, h4]
  exact ⟨rfl, h5, h6⟩

/-- Witness for `history_scenario` on four concrete snapshots. -/
theorem history_scenario_witness :
    (stA ≠ stB ∧ stB ≠ stC ∧ stA ≠ stD) ∧
    undo (undo (commitFire stC (commitFire stB (initState stA)))) = ⟨[stA, stB, stC], 0, stA⟩ ∧
    commitFire stD (⟨[stA, stB, stC], 0, stA⟩ : HistoryState) = ⟨[stA, stD], 1, stD⟩ ∧
    redo (⟨[stA, stD], 1, stD⟩ : HistoryState) = ⟨[stA, stD], 1, stD⟩ :=
  ⟨⟨by decide, by decide, by decide⟩,
    history_scenario stA stB stC stD (by decide) (by decide) (by decide)⟩

/-- C6 (amended): committing a snapshot structurally equal to the entry
at the current index appends nothing and keeps the index, but — as the
`setHistory` updater always returns the truncation `prev.slice(0,
historyIndex + 1)` — the sequence is cut down to `index + 1` entries;
only when the index is already at the last position is this a complete
no-op.  The no-adjacent-duplicates invariant holds in every reachable
state, and committing A then A again yields a sequence of length 1. -/
theorem commit_equal_truncates :
    (∀ (σ : HistoryState) (s : BlurState),
      (σ.history.take (σ.index + 1)).getLast? = some s →
      commitFire s σ = ⟨σ.history.take (σ.index + 1), σ.index, s⟩) ∧
    (∀ (σ : HistoryState) (s : BlurState), Reachable σ →
      (σ.history.take (σ.index + 1)).getLast? = some s →
      σ.index + 1 = σ.history.length → commitFire s σ = σ) ∧
    (∀ (σ : HistoryState), Reachable σ → σ.history.Chain' (fun a b => a ≠ b)) ∧
    (∀ A : BlurState, commitFire A (initState A) = initState A) := by
  have part1 : ∀ (σ : HistoryState) (s : BlurState),
      (σ.history.take (σ.index + 1)).getLast? = some s →
      commitFire s σ = ⟨σ.history.take (σ.index + 1), σ.index, s⟩ := by
    intro σ s heq
    rw [commitFire]
    split
    · next hneq => exact absurd heq hneq
    · rfl
  refine ⟨part1, ?_, ?_, ?_⟩
  · intro σ s hr heq hlen
    obtain ⟨hne, hidx, hlive, hchain⟩ := reachable_inv hr
    rw [part1 σ s heq]
    have htake : σ.history.take (σ.index + 1) = σ.history := by
      rw [hlen, List.take_length]
    have hs : s = σ.live := by
      rw [htake, List.getLast?_eq_getElem?] at heq
      rw [← hlen] at heq
      simp only [Nat.add_sub_cancel] at heq
      rw [List.getD_eq_getElem?_getD, heq] at hlive
      simpa using hlive
    rw [htake, hs]
  · exact fun σ hr => (reachable_inv hr).2.2.2
  · intro A
    simp [commitFire, initState]

/-- C6 counterexample: in the reachable state with sequence `[A, B]`,
index 0 and live snapshot A (reached by commit B; undo), committing A —
equal to the entry at the current index — is not a no-op: the sequence
shrinks from `[A, B]` to `[A]`. -/
theorem commit_equal_not_noop :
    Reachable (⟨[stA, stB], 0, stA⟩ : HistoryState) ∧
    (commitFire stA ⟨[stA, stB], 0, stA⟩).history ≠ [stA, stB] ∧
    (commitFire stA ⟨[stA, stB], 0, stA⟩).history = [stA] := by
  refine ⟨?_, by decide, by decide⟩
  have h : undo (commitFire stB (initState stA)) = ⟨[stA, stB], 0, stA⟩ := by decide
  rw [← h]
  exact Reachable.stepUndo (Reachable.stepCommit stB (Reachable.init stA))

/-- Witness for `commit_equal_truncates` on concrete states. -/
theorem commit_equal_truncates_witness :
    (([stA, stB].take (0 + 1)).getLast? = some stA ∧
      commitFire stA ⟨[stA, stB], 0, stA⟩ = ⟨[stA], 0, stA⟩) ∧
    (Reachable (initState stA) ∧ commitFire stA (initState stA) = initState stA) :=
  ⟨⟨by decide, commit_equal_truncates.1 ⟨[stA, stB], 0, stA⟩ stA (by decide)⟩,
    ⟨Reachable.init stA,
      commit_equal_truncates.2.1 (initState stA) stA (Reachable.init stA) (by decide) rfl⟩⟩

/-- C7: `undo()` at index 0 and `redo()` at the last index are no-ops
(total functions, no error), and `undo`/`redo` never mutate the
sequence, only the index and the live snapshot. -/
theorem undo_redo_safe (σ : HistoryState) :
    (σ.index ≤ 0 → undo σ = σ) ∧
    (σ.history.length - 1 ≤ σ.index → redo σ = σ) ∧
    (undo σ).history = σ.history ∧ (redo σ).history = σ.history := by
  refine ⟨?_, ?_, ?_, ?_⟩
  · intro h; rw [undo, if_neg (by omega)]
  · intro h; rw [redo, if_neg (by omega)]
  · rw [undo]; split <;> rfl
  · rw [redo]; split <;> rfl

/-- Witness for `undo_redo_safe` at a freshly seeded history. -/
theorem undo_redo_safe_witness :
    (initState stA).index ≤ 0 ∧ undo (initState stA) = initState stA ∧
    (initState stA).history.length - 1 ≤ (initState stA).index ∧
    redo (initState stA) = initState stA ∧
    (undo (initState stA)).history = (initState stA).history ∧
    (redo (initState stA)).history = (initState stA).history :=
  ⟨by decide, (undo_redo_safe (initState stA)).1 (by decide),
    by decide, (undo_redo_safe (initState stA)).2.1 (by decide),
    (undo_redo_safe (initState stA)).2.2.1, (undo_redo_safe (initState stA)).2.2.2⟩

/-- C8: in every history state reachable by commit/undo/redo from a
seeded initial state, if the sequence is non-empty then
`0 ≤ index < length(sequence)`. -/
theorem index_in_range (σ : HistoryState) (h : Reachable σ) (_hne : σ.history ≠ []) :
    0 ≤ σ.index ∧ σ.index < σ.history.length :=
  ⟨Nat.zero_le _, (reachable_inv h).2.1⟩

/-- Witness for `index_in_range` at a freshly seeded history. -/
theorem index_in_range_witness :
    Reachable (initState stA) ∧ (initState stA).history ≠ [] ∧
    0 ≤ (initState stA).index ∧ (initState stA).index < (initState stA).history.length :=
  ⟨Reachable.init stA, by decide,
    (index_in_range (initState stA) (Reachable.init stA) (by decide)).1,
    (index_in_range (initState stA) (Reachable.init stA) (by decide)).2⟩

/-- C9: three parameter changes A, B, C each arriving inside the
previous change's debounce window leave a single pending commit (each
change replaces the previous pending one), and when the window finally
elapses exactly one history entry — the final snapshot C — is appended,
not three. -/
theorem debounce_coalesce (s₀ A B C : BlurState) (h : C ≠ s₀) :
    (change B (change A ⟨initState s₀, none⟩)).pending = some B ∧
    elapse (change C (change B (change A ⟨initState s₀, none⟩))) =
      ⟨⟨[s₀, C], 1, C⟩, none⟩ := by
  refine ⟨rfl, ?_⟩
  simp [change, elapse, applyState, initState, commitFire, Ne.symm h]

/-- Witness for `debounce_coalesce` on concrete snapshots. -/
theorem debounce_coalesce_witness :
    stD ≠ stA ∧
    (change stC (change stB ⟨initState stA, none⟩)).pending = some stC ∧
    elapse (change stD (change stC (change stB ⟨initState stA, none⟩))) =
      ⟨⟨[stA, stD], 1, stD⟩, none⟩ :=
  ⟨by decide, (debounce_coalesce stA stB stC stD (by decide)).1,
    (debounce_coalesce stA stB stC stD (by decide)).2⟩

/-- C10 (amended): in every reachable history state with `index > 0` —
where the live snapshot necessarily equals the entry at the current
index, i.e. no uncommitted change is pending — `undo()` followed by
`redo()` is the identity on the controller state. -/
theorem undo_redo_identity (σ : HistoryState) (h : Reachable σ) (hpos : 0 < σ.index) :
    redo (undo σ) = σ := by
  obtain ⟨hne, hidx, hlive, hchain⟩ := reachable_inv h
  rw [undo, if_pos hpos, redo]
  simp only [applyState]
  rw [if_pos (by omega)]
  have he : σ.index - 1 + 1 = σ.index := by omega
  rw [he, hlive]

/-- Witness for `undo_redo_identity` after one committed change. -/
theorem undo_redo_identity_witness :
    Reachable (commitFire stB (initState stA)) ∧
    0 < (commitFire stB (initState stA)).index ∧
    redo (undo (commitFire stB (initState stA))) = commitFire stB (initState stA) :=
  ⟨Reachable.stepCommit stB (Reachable.init stA), by decide,
    undo_redo_identity _ (Reachable.stepCommit stB (Reachable.init stA)) (by decide)⟩

/-- C10 counterexample: with an uncommitted change pending — sequence
`[A, B]`, index 1, live snapshot X (reached by commit B, then a change
to X whose debounce window has not elapsed) — undo cancels the pending
commit and redo restores `history[1] = B`, not the pre-undo live
snapshot X, so undo-then-redo is not the identity on the controller
state even though the index is enabled (`index > 0`). -/
theorem undo_redo_not_identity :
    ReachableC ⟨⟨[stA, stB], 1, stC⟩, some stC⟩ ∧
    0 < (⟨⟨[stA, stB], 1, stC⟩, some stC⟩ : Controller).hist.index ∧
    (redoC (undoC ⟨⟨[stA, stB], 1, stC⟩, some stC⟩)).hist.live ≠
      (⟨⟨[stA, stB], 1, stC⟩, some stC⟩ : Controller).hist.live := by
  refine ⟨?_, by decide, by decide⟩
  have h : change stC (elapse (change stB ⟨initState stA, none⟩)) =
      ⟨⟨[stA, stB], 1, stC⟩, some stC⟩ := by decide
  rw [← h]
  exact ReachableC.stepChange stC
    (ReachableC.stepElapse (ReachableC.stepChange stB (ReachableC.init stA)))

end SmoothBlur
